import Mathlib

/-!
Shallow embedding of the bit-packing core of the `modular-bitfield` repository
(Hirtol fork), together with theorems settling the frozen claims about it.

Machine integers of width `w` are modelled as natural numbers, with `% 2 ^ w`
applied exactly where the Rust source truncates (casts, wrapping operations,
`|=` into a fixed-width accumulator).  Rust's `wrapping_shl`/`wrapping_sub`
mask or wrap exactly as documented, and are modelled so.  A plain Rust shift
whose amount reaches the bit width of its operand is an arithmetic-overflow
error (a panic when debug assertions are on); such a shift is modelled by an
explicit guard returning the `panicked`/`none` outcome, with a comment at each
site.  Fallible paths (`unwrap` on a failed `Result`, array re-derivation that
cannot complete) are modelled with `Option` or a dedicated result type.
-/

namespace MB

/-! ## Bit buffer primitives — `src/src/private/push_pop.rs`

`PopBuffer<T>` / `PushBuffer<T>` hold a single accumulator of width
8/16/32/64/128.  The buffer value is a `Nat` below `2 ^ w`; the accumulator
width `w` is passed explicitly where the Rust code fixes it by the type. -/

/-- Rust `impl PopBits for PopBuffer<u8>` (push_pop.rs lines 22-32).
The mask is computed in `u16` arithmetic — `(0x01u16.wrapping_shl(amount))
.wrapping_sub(1) as u8`, modelled as add-then-mod for the wrapping
subtraction — and the remainder uses `checked_shr`, which yields `0` once
the shift amount reaches the u8 bit width.  Returns
`(popped byte, remaining buffer)`. -/
def pop_bits_u8 (buffer amount : Nat) : Nat × Nat :=
  (buffer &&& (((1 <<< (amount % 16)) % 2 ^ 16 + (2 ^ 16 - 1)) % 2 ^ 16 % 2 ^ 8),
    if 8 ≤ amount then 0 else buffer >>> amount)

/-- Rust macro `impl_pop_bits!` for `u16`, `u32`, `u64`, `u128` (push_pop.rs lines
34-54).  The mask is `0xFF >> (8 - amount)` computed in the accumulator
type, the popped byte is `(bytes & bitmask) as u8`, and the remainder again
uses `checked_shr` against the accumulator width `w`.  Returns
`(popped byte, remaining buffer)`. -/
def pop_bits_generic (w buffer amount : Nat) : Nat × Nat :=
  ((buffer &&& (0xFF >>> (8 - amount))) % 2 ^ 8,
    if w ≤ amount then 0 else buffer >>> amount)

/-- Dispatcher mirroring which `PopBits` impl Rust selects for each
accumulator width: the specialised `u8` impl at width 8, the macro-generated
impl at the other widths. -/
def pop_bits (w buffer amount : Nat) : Nat × Nat :=
  if w = 8 then pop_bits_u8 buffer amount else pop_bits_generic w buffer amount

/-- Rust macro `impl_push_bits!` for `u8`, `u16`, `u32`, `u64`, `u128` (push_pop.rs
lines 69-93).  The mask is `0xFF >> (8 - amount as u8)` on `u8`; for
`amount = 0` that shift amount is 8, which overflows the u8 shift — Rust
masks the amount in release builds (and panics under debug assertions), so
the masked form `(8 - amount) % 8` is used here and every theorem below
restricts to `1 ≤ amount ≤ 8`, where both behaviours coincide.  The content
shift is `wrapping_shl`, which masks its amount modulo the accumulator
width `w`. -/
def push_bits (w buffer amount bits : Nat) : Nat :=
  ((buffer <<< (amount % w)) % 2 ^ w) ||| (bits &&& ((0xFF >>> ((8 - amount) % 8)) % 2 ^ 8))

/-- The `u8` pop mask and the generic pop mask agree on `amount ≤ 8`:
both denote `2 ^ amount - 1`. -/
lemma pop_mask_eq (amount : Nat) (h : amount ≤ 8) :
    ((1 <<< (amount % 16)) % 2 ^ 16 + (2 ^ 16 - 1)) % 2 ^ 16 % 2 ^ 8 = 2 ^ amount - 1 ∧
      (0xFF : Nat) >>> (8 - amount) = 2 ^ amount - 1 := by
  interval_cases amount <;> decide

/-- Behaviour of the specialised `u8` pop on buffers below `2 ^ 8`. -/
lemma pop_bits_u8_spec (buffer amount : Nat) (hb : buffer < 2 ^ 8) (h : amount ≤ 8) :
    pop_bits_u8 buffer amount = (buffer % 2 ^ amount, buffer >>> amount) := by
  unfold pop_bits_u8
  rw [(pop_mask_eq amount h).1, Nat.and_pow_two_sub_one_eq_mod]
  rcases Nat.lt_or_ge amount 8 with hlt | hge
  · simp [Nat.not_le.mpr hlt]
  · have h8 : amount = 8 := Nat.le_antisymm h hge
    subst h8
    simp only [Nat.shiftRight_eq_div_pow]
    rw [Nat.div_eq_of_lt hb]
    simp

/-- Behaviour of the macro-generated pop at accumulator widths above the
shift amount. -/
lemma pop_bits_generic_spec (w buffer amount : Nat) (h : amount ≤ 8) (hw : amount < w) :
    pop_bits_generic w buffer amount = (buffer % 2 ^ amount, buffer >>> amount) := by
  unfold pop_bits_generic
  rw [(pop_mask_eq amount h).2, Nat.and_pow_two_sub_one_eq_mod]
  have hlt : buffer % 2 ^ amount < 2 ^ 8 :=
    Nat.lt_of_lt_of_le (Nat.mod_lt _ (by positivity))
      (Nat.pow_le_pow_right (by omega) h)
  rw [Nat.mod_eq_of_lt hlt]
  simp [Nat.not_le.mpr hw]

/-- Claim C5 (amended): for every accumulator width in {8,16,32,64,128},
every buffer, every `amount` with `1 ≤ amount ≤ 8` and every `bits` byte,
`push_bits` multiplies the buffer by `2 ^ (amount % width)` — the shift
amount wraps modulo the width, as `wrapping_shl` does, so at width 8 and
amount 8 the prior content is preserved rather than discarded — truncates
to the width, and ORs in `bits` reduced modulo `2 ^ amount`. -/
theorem push_bits_shift_or_mask (w buffer amount bits : Nat)
    (hw : w = 8 ∨ w = 16 ∨ w = 32 ∨ w = 64 ∨ w = 128)
    (h1 : 1 ≤ amount) (h8 : amount ≤ 8) :
    push_bits w buffer amount bits =
      ((buffer * 2 ^ (amount % w)) % 2 ^ w) ||| (bits % 2 ^ amount) := by
  have hmask : ((0xFF : Nat) >>> ((8 - amount) % 8)) % 2 ^ 8 = 2 ^ amount - 1 := by
    interval_cases amount <;> decide
  unfold push_bits
  rw [Nat.shiftLeft_eq, hmask, Nat.and_pow_two_sub_one_eq_mod]

/-- Witness for C5: width 8, buffer 3, amount 3, bits 0xAB. -/
theorem push_bits_shift_or_mask_witness :
    ((8 : Nat) = 8 ∨ (8 : Nat) = 16 ∨ (8 : Nat) = 32 ∨ (8 : Nat) = 64 ∨ (8 : Nat) = 128) ∧
      1 ≤ 3 ∧ 3 ≤ 8 ∧
      push_bits 8 3 3 0xAB = ((3 * 2 ^ (3 % 8)) % 2 ^ 8) ||| (0xAB % 2 ^ 3) :=
  ⟨Or.inl rfl, by decide, by decide,
    push_bits_shift_or_mask 8 3 3 0xAB (Or.inl rfl) (by decide) (by decide)⟩

/-- Counterexample to claim C5 as stated: at the 8-bit accumulator with
`amount = 8`, the claim says the prior content is fully discarded — the
result at buffer 1, bits 0 would be `((1 <<< 8) % 2 ^ 8) ||| (0 % 2 ^ 8) = 0`
— but `wrapping_shl` wraps the shift amount, so `push_bits` keeps the
content and returns 1. -/
theorem push_bits_discard_counterexample :
    push_bits 8 1 8 0 ≠ ((1 * 2 ^ 8) % 2 ^ 8) ||| (0 % 2 ^ 8) := by
  decide

/-- Claim C6: for every accumulator width in {8,16,32,64,128}, every buffer
value below `2 ^ width` and every `amount ≤ 8`, `pop_bits` returns the
`amount` least-significant bits of the buffer (`buffer % 2 ^ amount`) and
leaves the buffer logically right-shifted by `amount`; and whenever `amount`
is at least the accumulator width the remaining buffer is fully zeroed. -/
theorem pop_bits_returns_low_bits (w buffer amount : Nat)
    (hw : w = 8 ∨ w = 16 ∨ w = 32 ∨ w = 64 ∨ w = 128)
    (hb : buffer < 2 ^ w) (h : amount ≤ 8) :
    pop_bits w buffer amount = (buffer % 2 ^ amount, buffer >>> amount) ∧
      (w ≤ amount → (pop_bits w buffer amount).2 = 0) := by
  have hmain : pop_bits w buffer amount = (buffer % 2 ^ amount, buffer >>> amount) := by
    rcases hw with h8 | h16 | h32 | h64 | h128
    · subst h8; simpa [pop_bits] using pop_bits_u8_spec buffer amount hb h
    · subst h16; simpa [pop_bits] using pop_bits_generic_spec 16 buffer amount h (by omega)
    · subst h32; simpa [pop_bits] using pop_bits_generic_spec 32 buffer amount h (by omega)
    · subst h64; simpa [pop_bits] using pop_bits_generic_spec 64 buffer amount h (by omega)
    · subst h128; simpa [pop_bits] using pop_bits_generic_spec 128 buffer amount h (by omega)
  refine ⟨hmain, fun hle => ?_⟩
  rw [hmain]
  have hz : buffer < 2 ^ amount :=
    Nat.lt_of_lt_of_le hb (Nat.pow_le_pow_right (by omega) hle)
  simp [Nat.shiftRight_eq_div_pow, Nat.div_eq_of_lt hz]

/-- Witness for C6: width 16, buffer 0xABCD, amount 5. -/
theorem pop_bits_returns_low_bits_witness :
    ((16 : Nat) = 8 ∨ (16 : Nat) = 16 ∨ (16 : Nat) = 32 ∨ (16 : Nat) = 64 ∨ (16 : Nat) = 128) ∧
      0xABCD < 2 ^ 16 ∧ 5 ≤ 8 ∧
      (pop_bits 16 0xABCD 5 = (0xABCD % 2 ^ 5, 0xABCD >>> 5) ∧
        (16 ≤ 5 → (pop_bits 16 0xABCD 5).2 = 0)) :=
  ⟨Or.inr (Or.inl rfl), by decide, by decide,
    pop_bits_returns_low_bits 16 0xABCD 5 (Or.inr (Or.inl rfl)) (by decide) (by decide)⟩

/-- Claim C10: the specialised `u8` pop implementation and the
macro-generated implementation used at the 16/32/64/128-bit accumulators
compute the same function — on any buffer value representable in a `u8` and
any `amount ≤ 8`, both return the same popped byte and leave the same
remaining buffer. -/
theorem pop_bits_u8_refines_generic (w buffer amount : Nat)
    (hw : w = 16 ∨ w = 32 ∨ w = 64 ∨ w = 128)
    (hb : buffer < 2 ^ 8) (h : amount ≤ 8) :
    pop_bits_generic w buffer amount = pop_bits_u8 buffer amount := by
  have hwgt : amount < w := by omega
  rw [pop_bits_generic_spec w buffer amount h hwgt, pop_bits_u8_spec buffer amount hb h]

/-- Witness for C10: width 32, buffer 0x5A, amount 3. -/
theorem pop_bits_u8_refines_generic_witness :
    ((32 : Nat) = 16 ∨ (32 : Nat) = 32 ∨ (32 : Nat) = 64 ∨ (32 : Nat) = 128) ∧
      0x5A < 2 ^ 8 ∧ 3 ≤ 8 ∧
      pop_bits_generic 32 0x5A 3 = pop_bits_u8 0x5A 3 :=
  ⟨Or.inr (Or.inl rfl), by decide, by decide,
    pop_bits_u8_refines_generic 32 0x5A 3 (Or.inr (Or.inl rfl)) (by decide) (by decide)⟩

/-! ## Schema model — field specifiers

The `#[bitfield]` macro (`src/impl/src/bitfield/expand/`) consumes, per field
in declaration order, the `Specifier` data of the field's type: its bit width
`BITS`, its machine carrier type `Bytes`, and the `from_bytes`/`into_bytes`
conversions.  The `Specifier` impls themselves live outside `src/`, so they
are modelled from the spec where marked. -/

/-- Field value domains relevant to the claims (spec section 4.3). -/
inductive Domain
  | unsignedInt (width : Nat)
  | boolean
deriving DecidableEq

/-- Specifier constant `BITS` for each domain. -/
def Domain.bits : Domain → Nat
  | .unsignedInt w => w
  | .boolean => 1

/-- Modelled from the spec: the bit width of the `Specifier::Bytes` machine
type of a field — the crate's `Specifier` impls are not under `src/`; per the
spec's representation-converter description the narrowest standard unsigned
width (8/16/32/64/128) holding the field's bits is used, so a Rust cast
`as Bytes` truncates to this many bits. -/
def bytesWidth (bits : Nat) : Nat :=
  if bits ≤ 8 then 8 else if bits ≤ 16 then 16 else if bits ≤ 32 then 32
  else if bits ≤ 64 then 64 else 128

/-- Modelled from the spec: `Specifier::from_bytes` (spec section 4.3) — an
unsigned-integer field accepts exactly the values below `2 ^ width`, a
boolean field exactly `{0, 1}`; any other bit pattern is a decode error. -/
def from_bytes : Domain → Nat → Option Nat
  | .unsignedInt w, v => if v < 2 ^ w then some v else none
  | .boolean, v => if v < 2 then some v else none

/-- Modelled from the spec: `Specifier::into_bytes` (spec section 4.3) — a
value inside the field's legal domain encodes as itself; an out-of-domain
value is an `OutOfBounds` error. -/
def into_bytes : Domain → Nat → Option Nat
  | .unsignedInt w, v => if v < 2 ^ w then some v else none
  | .boolean, v => if v < 2 then some v else none

/-- One field of a schema: its domain plus the per-field suppression flags
consulted by the expansion code (`#[skip(getters)]` / `#[skip(setters)]`). -/
structure FieldSpec where
  domain : Domain
  skipGetters : Bool
  skipSetters : Bool
deriving DecidableEq

/-- Natural total bit width of a schema: the sum of the field `BITS`
(`generate_bitfield_size`, expand/mod.rs lines 94-115). -/
def totalBits (fs : List FieldSpec) : Nat :=
  (fs.map (fun f => f.domain.bits)).sum

/-! ## Generated `From` conversions — `expand/unpacked.rs` lines 375-468

`generate_to_from_repr_unpacked` walks the fields keeping a running offset
expression, the token sum `0usize + BITS_0 + ... + BITS_(i-1)`. -/

/-- Accumulator loop of the generated `impl From<Struct> for prim`
(`expand_into_for_field`, unpacked.rs lines 430-448): each field whose
getters are not skipped contributes
`(into_bytes(value).unwrap() as prim) << offset`, OR-ed into the `w`-bit
accumulator (the cast and the `|=` truncate modulo `2 ^ w`).  A failed
`unwrap` is a panic, modelled as `none`. -/
def into_repr_aux (w : Nat) : List (FieldSpec × Nat) → Nat → Nat → Option Nat
  | [], _, acc => some acc
  | (f, v) :: rest, offset, acc =>
    if f.skipGetters then into_repr_aux w rest (offset + f.domain.bits) acc
    else
      match into_bytes f.domain v with
      | none => none
      | some b =>
        into_repr_aux w rest (offset + f.domain.bits)
          (acc ||| (((b % 2 ^ w) <<< offset) % 2 ^ w))

/-- Generated `impl From<Struct> for prim` over a whole record: fields are
paired with their stored values, the accumulator starts at 0. -/
def into_repr (fs : List FieldSpec) (vals : List Nat) (w : Nat) : Option Nat :=
  into_repr_aux w (fs.zip vals) 0 0

/-- One field initialiser of the generated `impl From<prim> for Struct`
(`expand_from_for_field`, unpacked.rs lines 450-468).  The generated mask is
`(1 << (BITS - #offset + 1)) - 1`, where `#offset` interpolates the running
offset as the literal token sum `0usize + BITS_0 + ... + BITS_(i-1)`; by
left associativity of `-`/`+` the shift amount therefore evaluates to
`BITS_i + offset_i + 1`.  When that amount reaches the repr width `w` the
Rust shift overflows (a panic under debug assertions), modelled as `none`;
otherwise the masked value is cast `as Specifier::Bytes` (truncating to
`bytesWidth` bits) and passed to `from_bytes(..).unwrap()`, whose failure is
also a panic/`none`. -/
def from_repr_field (w offset : Nat) (f : FieldSpec) (input : Nat) : Option Nat :=
  if w ≤ f.domain.bits + offset + 1 then none
  else
    from_bytes f.domain
      (((input >>> offset) &&& ((1 <<< (f.domain.bits + offset + 1)) - 1))
        % 2 ^ bytesWidth f.domain.bits)

/-- Field-by-field loop of the generated `impl From<prim> for Struct`: a
field whose setters are skipped gets no initialiser (`expand_from_for_field`
returns `None` for it). -/
def from_repr_aux (w input : Nat) : List FieldSpec → Nat → Option (List Nat)
  | [], _ => some []
  | f :: rest, offset =>
    if f.skipSetters then from_repr_aux w input rest (offset + f.domain.bits)
    else
      match from_repr_field w offset f input with
      | none => none
      | some v => (from_repr_aux w input rest (offset + f.domain.bits)).map (v :: ·)

/-- Generated `impl From<prim> for Struct` over a whole record. -/
def from_repr (fs : List FieldSpec) (input w : Nat) : Option (List Nat) :=
  from_repr_aux w input fs 0

/-! ## Generated byte conversions — `expand/unpacked.rs` lines 67-179 -/

/-- Little-endian byte splitting of an integer into `n` bytes
(Rust `<prim>::to_le_bytes`). -/
def natToLeBytes (v : Nat) : Nat → List Nat
  | 0 => []
  | n + 1 => v % 2 ^ 8 :: natToLeBytes (v / 2 ^ 8) n

/-- Little-endian byte assembly (Rust `<prim>::from_le_bytes`). -/
def natFromLeBytes (bytes : List Nat) : Nat :=
  bytes.foldr (fun b acc => b + 2 ^ 8 * acc) 0

/-- Helper `next_divisible_by_8` (expand/mod.rs lines 37-43):
`((value - 1) / 8 + 1) * 8`. -/
def next_divisible_by_8 (n : Nat) : Nat := ((n - 1) / 8 + 1) * 8

/-- Generated `to_le_bytes` (unpacked.rs lines 113-131): convert the record
into the repr integer, then split it little-endian into `w / 8` bytes. -/
def to_le_bytes (fs : List FieldSpec) (vals : List Nat) (w : Nat) : Option (List Nat) :=
  (into_repr fs vals w).map (fun n => natToLeBytes n (w / 8))

/-- Generated `update_byte_le` (unpacked.rs lines 142-159): record → repr
integer → LE bytes, replace the byte at `byte` with `value`, reassemble the
integer and re-derive the record through the generated `From<prim>`. -/
def update_byte_le (fs : List FieldSpec) (w : Nat) (vals : List Nat) (byte value : Nat) :
    Option (List Nat) :=
  match into_repr fs vals w with
  | none => none
  | some n => from_repr fs (natFromLeBytes ((natToLeBytes n (w / 8)).set byte value)) w

/-- Generated `update_byte_be` (unpacked.rs lines 161-176): identical to
`update_byte_le` except that the written index is
`next_divisible_by_8 / 8 - 1 - byte`. -/
def update_byte_be (fs : List FieldSpec) (w : Nat) (vals : List Nat) (byte value : Nat) :
    Option (List Nat) :=
  match into_repr fs vals w with
  | none => none
  | some n =>
    from_repr fs (natFromLeBytes ((natToLeBytes n (w / 8)).set (w / 8 - 1 - byte) value)) w

/-- Outcome of the generated non-filled `from_le_bytes`. -/
inductive FromBytesResult
  | ok (vals : List Nat)
  | outOfBounds
  | panicked
deriving DecidableEq

/-- Generated non-filled `from_le_bytes` (unpacked.rs lines 89-111).
Here `size` is the schema's target-or-actual bit count; the byte array has
`next_divisible_by_8 size / 8` entries and the repr width equals
`next_divisible_by_8 size` (the two array lengths must agree for the
generated code to compile).  The guard rejects with `OutOfBounds` when
`bytes[len - 1] >= 0x01u8 << (8 - (aligned - size))`; when `aligned = size`
that shift amount is 8, which overflows the u8 shift — a panic under debug
assertions (release builds mask the amount and compare against 1 instead;
either way the threshold formula of the spec is not implemented there) —
modelled as `panicked`.  Below the threshold the bytes are assembled
little-endian and pushed through the generated `From<prim>`, whose own
panic is propagated. -/
def from_le_bytes (fs : List FieldSpec) (size : Nat) (bytes : List Nat) : FromBytesResult :=
  if 8 ≤ 8 - (next_divisible_by_8 size - size) then .panicked
  else if 2 ^ (8 - (next_divisible_by_8 size - size)) ≤
      bytes.getD (next_divisible_by_8 size / 8 - 1) 0 then .outOfBounds
  else
    match from_repr fs (natFromLeBytes bytes) (next_divisible_by_8 size) with
    | some vs => .ok vs
    | none => .panicked

/-! ## Generated accessors — `expand/unpacked.rs` lines 312-373 -/

/-- Generated setter for an unpacked field
(`expand_setters_for_field_unpacked`, unpacked.rs lines 312-373): the body
is `self.field = new_val;` — a plain store of the typed value into the
field's slot, with no domain check and no error path, although the
generated doc comment (lines 337-342) promises a panic on out-of-bounds
values. -/
def set_field (vals : List Nat) (i v : Nat) : List Nat := vals.set i v

/-- Generated `with_` variant (unpacked.rs lines 351-362): calls the setter
on a copy of the record and returns the copy. -/
def with_field (vals : List Nat) (i v : Nat) : List Nat := set_field vals i v

/-! ## Schema-validation checks — `expand/mod.rs` lines 117-184 -/

/-- Modelled from the spec: the crate's `private::checks` trait
`CheckTotalSizeMultipleOf8` (not under `src/`) is satisfied by
`TotalSize<[(); rem]>` exactly for remainder 0. -/
def checkTotalSizeMultipleOf8 (rem : Nat) : Bool := rem == 0

/-- Modelled from the spec: the fork's dual trait
`CheckTotalSizeIsNotMultipleOf8` is satisfied exactly for nonzero
remainders. -/
def checkTotalSizeIsNotMultipleOf8 (rem : Nat) : Bool := rem != 0

/-- Generated check without a `bits` override
(`generate_filled_check_for_aligned_bits`, expand/mod.rs lines 151-167):
emits `Size = TotalSize<[(); actual_bits % 8]>` against the trait selected
by the `filled` flag. -/
def filled_check_aligned (filled : Bool) (fs : List FieldSpec) : Bool :=
  if filled then checkTotalSizeMultipleOf8 (totalBits fs % 8)
  else checkTotalSizeIsNotMultipleOf8 (totalBits fs % 8)

/-- Modelled from the spec: the checks traits `CheckFillsUnalignedBits` /
`CheckDoesNotFillUnalignedBits` are satisfied by `CheckType = [(); b]`
exactly when the emitted comparison result `b` is `true as usize = 1`. -/
def checkComparison (b : Bool) : Bool := b

/-- Generated check with an explicit `bits = N`
(`generate_filled_check_for_unaligned_bits`, expand/mod.rs lines 121-145):
emits `[(); (N == actual_bits) as usize]` when filled and
`[(); (N > actual_bits) as usize]` when not filled. -/
def filled_check_unaligned (filled : Bool) (requiredBits : Nat) (fs : List FieldSpec) : Bool :=
  if filled then checkComparison (requiredBits == totalBits fs)
  else checkComparison (decide (requiredBits > totalBits fs))

/-- Dispatch `generate_check_for_filled` (expand/mod.rs lines 177-184):
the unaligned check when `bits = N` is present, the aligned check
otherwise. -/
def generate_check_for_filled (filled : Bool) (bits : Option Nat) (fs : List FieldSpec) : Bool :=
  match bits with
  | some n => filled_check_unaligned filled n fs
  | none => filled_check_aligned filled fs

/-! ## Concrete schemas used by the claims -/

/-- The filled 8-bit schema `{a : Boolean, b : UnsignedInt(7)}`, repr `u8`. -/
def boolB7 : List FieldSpec :=
  [⟨.boolean, false, false⟩, ⟨.unsignedInt 7, false, false⟩]

/-- The filled 32-bit schema of the spec's concrete scenario:
`{r : UnsignedInt(8), g : UnsignedInt(8), b : UnsignedInt(8), a : Boolean,
rest : UnsignedInt(7)}`, repr `u32`. -/
def colorSchema : List FieldSpec :=
  [⟨.unsignedInt 8, false, false⟩, ⟨.unsignedInt 8, false, false⟩,
    ⟨.unsignedInt 8, false, false⟩, ⟨.boolean, false, false⟩,
    ⟨.unsignedInt 7, false, false⟩]

/-! ## Claim theorems about the generated conversions -/

/-- Claim C1 (code bug): the integer round-trip fails.  Encoding the valid
record `{a = false, b = 1}` of the schema `{a : Boolean, b : UnsignedInt(7)}`
yields the backing integer 2, but decoding 2 back panics instead of
returning the record: the generated extraction mask
`(1 << (BITS - offset + 1)) - 1` keeps `offset + 1` bits too many, so the
boolean field's `from_bytes(..).unwrap()` receives the two-bit value 2 and
fails, where the claim demands that field `a` read back exactly bit 0,
namely `false`. -/
theorem roundtrip_decode_mask_bug :
    into_repr boolB7 [0, 1] 8 = some 2 ∧ from_repr boolB7 2 8 = none := by
  decide

/-- Claim C2: for the 32-bit colour schema, the record with
`r = 0xFF, g = 0x00, b = 0x80, a = true, rest = 0` encodes to the backing
integer `0x018000FF` and to the little-endian bytes
`[0xFF, 0x00, 0x80, 0x01]`. -/
theorem color_scenario_encode :
    into_repr colorSchema [0xFF, 0x00, 0x80, 1, 0] 32 = some 0x018000FF ∧
      to_le_bytes colorSchema [0xFF, 0x00, 0x80, 1, 0] 32 =
        some [0xFF, 0x00, 0x80, 0x01] := by
  decide

/-- Claim C3 (code bug): the record `{a = false, b = 1}` has the single-byte
representation `[0x02]`, and `update_byte_le 0 0x02` writes that byte its
current value — so by the claim every byte (hence the whole record) must be
unchanged — yet the re-derivation step panics inside the generated
`From<prim>` (the over-wide decode mask feeds the boolean field the value
2), so the update completes with a panic instead of leaving the record
intact. -/
theorem update_byte_le_panics :
    to_le_bytes boolB7 [0, 1] 8 = some [0x02] ∧
      update_byte_le boolB7 8 [0, 1] 0 0x02 = none := by
  decide

/-- Claim C4 (code bug): the generated unpacked setter performs no domain
check.  For a `UnsignedInt(7)` field, 200 is out of the legal domain — its
`into_bytes` is the `OutOfBounds` error — yet the setter silently stores
200 into the record (which the claim forbids: it demands a typed
`OutOfBounds` failure and an unmodified record; the setter's own generated
doc comment even promises a panic). -/
theorem setter_stores_out_of_domain :
    into_bytes (.unsignedInt 7) 200 = none ∧
      set_field [0] 0 200 = [200] ∧ with_field [0] 0 200 = [200] := by
  decide

/-! ## Claim C7 — the non-filled `from_le_bytes` bound -/

/-- Reading the element appended at the end of a list. -/
lemma getD_append_last (l : List Nat) (t : Nat) : (l ++ [t]).getD l.length 0 = t := by
  induction l with
  | nil => rfl
  | cons a l ih => simpa using ih

/-- Unfolding lemma for the little-endian byte assembly. -/
lemma natFromLeBytes_cons (b : Nat) (l : List Nat) :
    natFromLeBytes (b :: l) = b + 2 ^ 8 * natFromLeBytes l := rfl

/-- Value of a byte list with its most significant byte split off. -/
lemma natFromLeBytes_append_last (l : List Nat) (t : Nat) :
    natFromLeBytes (l ++ [t]) = natFromLeBytes l + 2 ^ (8 * l.length) * t := by
  induction l with
  | nil => simp [natFromLeBytes]
  | cons a l ih =>
    have hp : (2 : Nat) ^ (8 * (l.length + 1)) = 2 ^ 8 * 2 ^ (8 * l.length) := by
      rw [Nat.mul_succ, pow_add, Nat.mul_comm]
    simp only [List.cons_append, natFromLeBytes_cons, ih, List.length_cons, hp]
    ring

/-- A list of bytes assembles to a value below `2 ^ (8 * length)`. -/
lemma natFromLeBytes_lt (l : List Nat) (h : ∀ b ∈ l, b < 2 ^ 8) :
    natFromLeBytes l < 2 ^ (8 * l.length) := by
  induction l with
  | nil => simp [natFromLeBytes]
  | cons a l ih =>
    have ha : a < 2 ^ 8 := h a (List.mem_cons_self a l)
    have hl := ih (fun b hb => h b (List.mem_cons_of_mem a hb))
    have hp : (2 : Nat) ^ (8 * (l.length + 1)) = 2 ^ 8 * 2 ^ (8 * l.length) := by
      rw [Nat.mul_succ, pow_add, Nat.mul_comm]
    simp only [natFromLeBytes_cons, List.length_cons, hp]
    have h256 : (2 : Nat) ^ 8 = 256 := by norm_num
    rw [h256] at ha ⊢
    omega

/-- Claim C7 (amended): for every non-filled schema whose bit count `size`
is not a multiple of 8, the generated `from_le_bytes` rejects with
`OutOfBounds` exactly when the most significant byte reaches
`2 ^ (8 - (aligned_bits - size))` — equivalently, exactly when the
assembled little-endian integer has a bit set at or above position `size`.
(When `size` is a multiple of 8, reachable only through an explicit
`bits = N` override on a non-filled schema, the guard's shift `0x01u8 << 8`
overflows instead of implementing the formula; see the counterexample.) -/
theorem from_le_bytes_bound_exact (fs : List FieldSpec) (size : Nat)
    (low : List Nat) (top : Nat)
    (hsz : size % 8 ≠ 0) (hlen : low.length = size / 8)
    (hlow : ∀ b ∈ low, b < 2 ^ 8) (htop : top < 2 ^ 8) :
    from_le_bytes fs size (low ++ [top]) = .outOfBounds ↔
      2 ^ size ≤ natFromLeBytes (low ++ [top]) := by
  have hA : next_divisible_by_8 size = 8 * (size / 8) + 8 := by
    unfold next_divisible_by_8; omega
  have h1 : ¬ 8 ≤ 8 - (next_divisible_by_8 size - size) := by omega
  have hsh : 8 - (next_divisible_by_8 size - size) = size % 8 := by omega
  have hidx : next_divisible_by_8 size / 8 - 1 = size / 8 := by omega
  have hval : natFromLeBytes (low ++ [top]) =
      natFromLeBytes low + 2 ^ (8 * (size / 8)) * top := by
    rw [natFromLeBytes_append_last, hlen]
  have hpow : (2 : Nat) ^ (8 * (size / 8)) * 2 ^ (size % 8) = 2 ^ size := by
    rw [← pow_add]
    congr 1
    omega
  unfold from_le_bytes
  rw [if_neg h1, hsh, hidx, ← hlen, getD_append_last]
  by_cases hc : 2 ^ (size % 8) ≤ top
  · rw [if_pos hc]
    refine iff_of_true rfl ?_
    calc 2 ^ size = 2 ^ (8 * (size / 8)) * 2 ^ (size % 8) := hpow.symm
      _ ≤ 2 ^ (8 * (size / 8)) * top := Nat.mul_le_mul_left _ hc
      _ ≤ natFromLeBytes low + 2 ^ (8 * (size / 8)) * top := Nat.le_add_left _ _
      _ = natFromLeBytes (low ++ [top]) := hval.symm
  · rw [if_neg hc]
    refine iff_of_false ?_ ?_
    · rcases hfr : from_repr fs (natFromLeBytes (low ++ [top])) (next_divisible_by_8 size)
        with _ | vs <;> simp [hfr]
    · rw [Nat.not_le] at hc ⊢
      have hlo : natFromLeBytes low < 2 ^ (8 * (size / 8)) := by
        have := natFromLeBytes_lt low hlow
        rwa [hlen] at this
      calc natFromLeBytes (low ++ [top])
          = natFromLeBytes low + 2 ^ (8 * (size / 8)) * top := hval
        _ < 2 ^ (8 * (size / 8)) + 2 ^ (8 * (size / 8)) * top := by omega
        _ = 2 ^ (8 * (size / 8)) * (top + 1) := by ring
        _ ≤ 2 ^ (8 * (size / 8)) * 2 ^ (size % 8) := Nat.mul_le_mul_left _ hc
        _ = 2 ^ size := hpow

/-- Witness for C7: the 11-bit schema boundary, bytes `[5, 7]`. -/
theorem from_le_bytes_bound_exact_witness :
    11 % 8 ≠ 0 ∧ ([5] : List Nat).length = 11 / 8 ∧ (∀ b ∈ ([5] : List Nat), b < 2 ^ 8) ∧
      (7 : Nat) < 2 ^ 8 ∧
      (from_le_bytes [] 11 ([5] ++ [7]) = .outOfBounds ↔
        2 ^ 11 ≤ natFromLeBytes ([5] ++ [7])) :=
  ⟨by decide, by decide, by decide, by decide,
    from_le_bytes_bound_exact [] 11 [5] 7 (by decide) (by decide) (by decide) (by decide)⟩

/-- Counterexample to claim C7 as stated: a non-filled schema pinned to
`bits = 16` holding one 9-bit field has `actual_bits = 16`, a multiple of 8,
so the claimed threshold is `2 ^ (8 - (aligned - actual)) = 2 ^ 8`, which no
byte reaches — the claim predicts `Ok` for the bytes `[0x00, 0x01]` (value
256, within the declared 16 bits).  The generated guard instead computes
`0x01u8 << 8`, an overflowing shift (a panic under debug assertions; release
builds mask it to `0x01 << 0` and reject these bytes as `OutOfBounds`) — on
no build profile is the claimed formula followed at this boundary. -/
theorem from_le_bytes_aligned_counterexample :
    ¬ (2 ^ (8 - (next_divisible_by_8 16 - 16)) ≤ 1) ∧
      from_le_bytes [⟨.unsignedInt 9, false, false⟩] 16 [0x00, 0x01] = .panicked := by
  decide

/-! ## Claim theorems about the schema-validation checks -/

/-- Claim C8: without an explicit `bits` override, a `filled` schema passes
the generated check exactly when the natural sum of the field bit widths is
a multiple of 8, and a non-`filled` schema exactly when that sum is not a
multiple of 8 (an exactly byte-aligned non-filled declaration is
rejected). -/
theorem filled_check_no_override (filled : Bool) (fs : List FieldSpec) :
    generate_check_for_filled filled none fs = true ↔
      ((filled = true ∧ 8 ∣ totalBits fs) ∨ (filled = false ∧ ¬ 8 ∣ totalBits fs)) := by
  cases filled <;>
    simp [generate_check_for_filled, filled_check_aligned, checkTotalSizeMultipleOf8,
      checkTotalSizeIsNotMultipleOf8, Nat.dvd_iff_mod_eq_zero]

/-- Claim C9 (amended): with an explicit `bits = N` override, a `filled`
schema passes the generated check exactly when the sum of the field bit
widths equals `N`, and a non-`filled` schema exactly when that sum is
strictly below `N` — an exact fit with `filled = false` is rejected, not
accepted as the unamended claim's `≤` would have it. -/
theorem filled_check_with_override (filled : Bool) (n : Nat) (fs : List FieldSpec) :
    generate_check_for_filled filled (some n) fs = true ↔
      ((filled = true ∧ totalBits fs = n) ∨ (filled = false ∧ totalBits fs < n)) := by
  cases filled <;>
    simp [generate_check_for_filled, filled_check_unaligned, checkComparison] <;>
    omega

/-- Counterexample to claim C9 as stated: a non-filled schema with
`bits = 8` and a single 8-bit field has total width `8 ≤ 8`, so the claim
accepts it, but the generated comparison is the strict `N > actual_bits`
and the check rejects it. -/
theorem filled_check_le_counterexample :
    totalBits [⟨.unsignedInt 8, false, false⟩] ≤ 8 ∧
      generate_check_for_filled false (some 8) [⟨.unsignedInt 8, false, false⟩] = false := by
  decide

end MB
